import Mathlib

/-!
Verification of the RazerHeatMap color-state engine and its transport protocol.

Shallow embedding of `heatmap.py` (class `HeatMapper`) and `heatmap_server.py`
(class `HeatMapServer`).  Python dicts are modelled as insertion-ordered
association lists; Python/numpy floats are modelled by `ℚ`, with the places
where float arithmetic can produce a non-finite value (`0/0 → NaN`,
`np.min([]) → ValueError`) made explicit through `Option`.  The external
matplotlib colormap function (`plt.cm.get_cmap(name)`) is an abstract
parameter of type `String → ℚ → ℚ × ℚ × ℚ`, and `np.sqrt` (used only when
`enhance_lowkeys` is on) is an abstract parameter `ℚ → ℚ`.
-/

/-- A keyboard cell coordinate: the Python `(row, col)` tuple used as dict key. -/
abbrev Loc : Type := ℕ × ℕ

/-- An RGB triple as the code stores it: a Python list of three ints. -/
abbrev RGB : Type := List ℤ

/-- A palette (matplotlib colormap restricted to RGB): normalized value to channels. -/
abbrev Palette : Type := ℚ → ℚ × ℚ × ℚ

/-- Python `int(q)`: truncation toward zero (the denominator is positive). -/
def pyInt (q : ℚ) : ℤ := q.num.tdiv (q.den : ℤ)

/-- `[int(element * 255) for element in rgb]` (heatmap.py lines 59 and 90). -/
def rgbScale (c : ℚ × ℚ × ℚ) : RGB :=
  [pyInt (c.1 * 255), pyInt (c.2.1 * 255), pyInt (c.2.2 * 255)]

/-- Lookup in a Python dict modelled as an insertion-ordered association list
(`d.get(k)` / `d[k]`). -/
def assocLookup {α β : Type} [DecidableEq α] : List (α × β) → α → Option β
  | [], _ => none
  | p :: t, k => if p.1 = k then some p.2 else assocLookup t k

/-- Python dict assignment `d[k] = v`: replace in place if the key exists,
otherwise append at the end (insertion order). -/
def assocSet {α β : Type} [DecidableEq α] : List (α × β) → α → β → List (α × β)
  | [], k, v => [(k, v)]
  | p :: t, k, v => if p.1 = k then (k, v) :: t else p :: assocSet t k v

/-- The fixed palette registry `COLOR_MAPS` (heatmap.py lines 14-15). -/
def COLOR_MAPS : List String :=
  ["jet", "turbo", "hot", "bwr", "seismic", "Spectral", "gnuplot", "brg",
   "gist_rainbow", "rainbow"]

/-- The engine state: the fields of the `HeatMapper` object (heatmap.py lines 19-54).
Times are rationals (seconds); `color_map` is the bound colormap function. -/
structure HeatMapper where
  debug_mode : Bool
  key_to_location_map : List (String × List Loc)
  color_map_name : String
  color_map : Palette
  color_map_index : ℕ
  refresh_interval : ℚ
  enhance_lowkeys : Bool
  change_heatmap_on_refresh : Bool
  start_time : ℚ
  elapsed_time : ℚ
  location_to_color : List (Loc × RGB)
  location_to_count : List (Loc × ℕ)
  key_name_to_count : List (String × ℕ)

/-- The smaller of two rationals. -/
def ratMin (a b : ℚ) : ℚ := if a ≤ b then a else b

/-- The larger of two rationals. -/
def ratMax (a b : ℚ) : ℚ := if a ≤ b then b else a

/-- `np.min` over a nonempty vector; `none` for the empty array (ValueError). -/
def listMin : List ℚ → Option ℚ
  | [] => none
  | x :: xs => some (xs.foldl ratMin x)

/-- `np.max` over a nonempty vector; `none` for the empty array (ValueError). -/
def listMax : List ℚ → Option ℚ
  | [] => none
  | x :: xs => some (xs.foldl ratMax x)

/-- The normalization step of `__update_color_map` (heatmap.py lines 77-82):
optional `np.sqrt` contrast transform (`enh` stands for `np.sqrt`), then
`(counts - min(counts)) / max(counts)`.  `none` models a non-finite float
outcome: the empty array (ValueError on `np.min`) or `max(counts) == 0`,
where the division yields `0/0 = NaN` (or `±inf`) instead of a number. -/
def normalizeCounts (flag : Bool) (enh : ℚ → ℚ) (counts : List ℚ) : Option (List ℚ) :=
  let cs := if flag then counts.map enh else counts
  match listMin cs, listMax cs with
  | some mn, some mx => if mx = 0 then none else some (cs.map fun c => (c - mn) / mx)
  | _, _ => none

/-- All locations of the layout, in the order the two nested loops of
`__init_color_map` visit them (heatmap.py lines 61-63). -/
def layoutLocations (layout : List (String × List Loc)) : List Loc :=
  (layout.map Prod.snd).flatten

/-- `__init_color_map` (heatmap.py lines 57-64): set every layout location's
count to 0 and its color to the colormap's value at 0, scaled to ints.
The two independent dict writes of the nested loop are modelled as two folds
over the same location sequence. -/
def initColorMap (s : HeatMapper) : HeatMapper :=
  let base := rgbScale (s.color_map 0)
  { s with
    location_to_count :=
      (layoutLocations s.key_to_location_map).foldl (fun m loc => assocSet m loc 0)
        s.location_to_count,
    location_to_color :=
      (layoutLocations s.key_to_location_map).foldl (fun m loc => assocSet m loc base)
        s.location_to_color }

/-- `__update_color_map` (heatmap.py lines 76-93): normalize the count vector
(in dict-value order) and write `color_map(normalized)` scaled to ints back
into `location_to_color`, location by location in the same order.  `none`
when the normalization produced a non-finite value. -/
def updateColorMap (enh : ℚ → ℚ) (s : HeatMapper) : Option HeatMapper :=
  match normalizeCounts s.enhance_lowkeys enh
      (s.location_to_count.map fun p => (p.2 : ℚ)) with
  | none => none
  | some ns =>
    some { s with
      location_to_color :=
        ((s.location_to_count.map Prod.fst).zip ns).foldl
          (fun m p => assocSet m p.1 (rgbScale (s.color_map p.2)))
          s.location_to_color }

/-- `__select_next_colormap` (heatmap.py lines 95-101): advance the cursor with
wrap-around and re-bind name and colormap function from the registry. -/
def selectNextColormap (getCmap : String → Palette) (s : HeatMapper) : HeatMapper :=
  let idx := if s.color_map_index = COLOR_MAPS.length - 1 then 0 else s.color_map_index + 1
  { s with
    color_map_index := idx,
    color_map_name := COLOR_MAPS.getD idx (""),
    color_map := getCmap (COLOR_MAPS.getD idx ("")) }

/-- Python `str.startswith("Key")`: the first three characters are `K`, `e`, `y`. -/
def startsWithKey (s : String) : Bool :=
  match s.data with
  | 'K' :: 'e' :: 'y' :: _ => true
  | _ => false

/-- ASCII lowercasing of one character, as `str.lower` acts on key names. -/
def toLowerCh (c : Char) : Char :=
  if 65 ≤ c.toNat ∧ c.toNat ≤ 90 then Char.ofNat (c.toNat + 32) else c

/-- Python `str.lower()` on a key name. -/
def pyLower (s : String) : String := String.mk (s.data.map toLowerCh)

/-- Key-name normalization in `on_key_release` (heatmap.py lines 111-114):
lowercase unless the name starts with `"Key"`. -/
def normalizeKeyName (key : String) : String :=
  if startsWithKey key then key else pyLower key

/-- The refresh check at the top of `on_key_release` (heatmap.py lines 104-109):
update `elapsed_time` from `now`; if it exceeds the refresh interval, optionally
rotate the palette, reset counts and colors, and restart the clock (the second
`time.time()` call at line 109 is modelled by the same `now`). -/
def refreshStep (getCmap : String → Palette) (s : HeatMapper) (now : ℚ) : HeatMapper :=
  let s1 := { s with elapsed_time := now - s.start_time }
  if s1.elapsed_time > s1.refresh_interval then
    let s2 := if s1.change_heatmap_on_refresh then selectNextColormap getCmap s1 else s1
    { initColorMap s2 with start_time := now }
  else s1

/-- The rest of `on_key_release` after the refresh check (heatmap.py lines
111-142): resolve the key, return unchanged state if unmapped, otherwise
increment both count dicts, run the debug-mode hooks, and recompute colors.
The `+= 1` increments read the existing entry; the dicts always contain the
resolved key (they are initialized over the whole layout, and the resolved
locations come from the layout), so Python's KeyError path is unreachable and
the `getD 0` default is never taken on reachable states.
`none` models the NaN contamination of `__update_color_map`. -/
def processKey (getCmap : String → Palette) (enh : ℚ → ℚ) (s : HeatMapper)
    (key : String) : Option HeatMapper :=
  let strKey := normalizeKeyName key
  match assocLookup s.key_to_location_map strKey with
  | none => some s
  | some locations =>
    let s1 := { s with
      key_name_to_count :=
        assocSet s.key_name_to_count strKey
          ((assocLookup s.key_name_to_count strKey).getD 0 + 1) }
    let s2 := { s1 with
      location_to_count :=
        locations.foldl
          (fun m loc => assocSet m loc ((assocLookup m loc).getD 0 + 1))
          s1.location_to_count }
    let s3 :=
      if s2.debug_mode then
        let sa := if strKey = "Key.f2" then selectNextColormap getCmap s2 else s2
        if strKey = "Key.f3" then { sa with enhance_lowkeys := !sa.enhance_lowkeys } else sa
      else s2
    updateColorMap enh s3

/-- `on_key_release` (heatmap.py lines 103-142): the refresh check followed by
the key-processing step.  `key` is the Python `str(key)` of the event. -/
def onKeyRelease (getCmap : String → Palette) (enh : ℚ → ℚ) (s : HeatMapper)
    (key : String) (now : ℚ) : Option HeatMapper :=
  processKey getCmap enh (refreshStep getCmap s now) key

/-- The decimal digit character for `d < 10`. -/
def digitChar (d : ℕ) : Char := Char.ofNat (48 + d)

/-- The numeric value of a decimal digit character. -/
def charVal (c : Char) : ℕ := c.toNat - 48

/-- Whether a character is one of the ten decimal digit characters. -/
def isDigitCh (c : Char) : Bool := decide (48 ≤ c.toNat) && decide (c.toNat ≤ 57)

/-- Python `str(n)` for a non-negative int: its decimal digit characters. -/
def natToChars (n : ℕ) : List Char :=
  if n = 0 then ['0'] else ((Nat.digits 10 n).map digitChar).reverse

/-- Parse a nonempty all-digit character run as a decimal natural number. -/
def parseNatChars (cs : List Char) : Option ℕ :=
  if cs ≠ [] ∧ cs.all isDigitCh then
    some (Nat.ofDigits 10 (cs.reverse.map charVal))
  else none

/-- Python `str(k)` for a location tuple `k = (row, col)`: the canonical form
`"(row, col)"` used as wire key (heatmap.py line 69). -/
def pyStrPair (p : Loc) : String :=
  String.mk ('(' :: (natToChars p.1 ++ (',' :: (' ' :: (natToChars p.2 ++ [')'])))))

/-- The character class `str(tuple)` separates components with: not a comma. -/
def notCommaCh (c : Char) : Bool := c ≠ ','

/-- Helper of the canonical-form parser: the second component followed by the
closing parenthesis. -/
def evalSecondComponent (rest2 : List Char) : Option ℕ :=
  match parseNatChars (rest2.takeWhile isDigitCh), rest2.dropWhile isDigitCh with
  | some b, [c] => if c = ')' then some b else none
  | _, _ => none

/-- Helper of the canonical-form parser: split at the comma, parse the first
component, and require the `", "` separator before the second component. -/
def evalFirstSplit (rest : List Char) : Option Loc :=
  match parseNatChars (rest.takeWhile notCommaCh), rest.dropWhile notCommaCh with
  | some a, c1 :: c2 :: rest2 =>
    if c1 = ',' ∧ c2 = ' ' then (evalSecondComponent rest2).map fun b => (a, b) else none
  | _, _ => none

/-- `ast.literal_eval` (heatmap_server.py line 55) restricted to the canonical
`"(row, col)"` form the client produces: `none` models the exception raised on
anything else. -/
def literalEvalChars (cs : List Char) : Option Loc :=
  match cs with
  | [] => none
  | c :: rest => if c = '(' then evalFirstSplit rest else none

/-- String-level wrapper around `literalEvalChars`. -/
def literalEvalPair (s : String) : Option Loc := literalEvalChars s.data

/-- The client's wire encoding of the Color Assignment (heatmap.py lines 68-69):
`{str(k): location_to_color[k] for k in location_to_color if k is not None}`.
Tuple keys are never `None`, so the filter keeps every entry.  The JSON layer
(`json.dumps` / `json.loads`, Python stdlib) is modelled at the structural
document level: a message is the ordered string-keyed mapping it carries. -/
def serializeColors (cols : List (Loc × RGB)) : List (String × RGB) :=
  cols.map fun p => (pyStrPair p.1, p.2)

/-- The loop body of the server's decoding (heatmap_server.py lines 53-55):
fill the dict `m` entry by entry, keying by `ast.literal_eval` of each string
key; `none` models the uncaught exception on a key that is not a literal
location tuple, which aborts the loop. -/
def decodeColorsGo : List (String × RGB) → List (Loc × RGB) → Option (List (Loc × RGB))
  | [], m => some m
  | p :: t, m =>
    match literalEvalPair p.1 with
    | some k => decodeColorsGo t (assocSet m k p.2)
    | none => none

/-- The server's decoding of one structural document (heatmap_server.py lines
53-55): `color_map = dict()` followed by the `literal_eval` loop. -/
def decodeColors (doc : List (String × RGB)) : Option (List (Loc × RGB)) :=
  decodeColorsGo doc []

/-- The `HeatMapper` constructor `__init__` (heatmap.py lines 19-54) after the
layout file has been parsed (file loading is out of scope): bind the colormap
and its registry cursor, zero the key-name counters, and initialize counts and
colors through `__init_color_map`.  `t0` is `time.time()` at construction. -/
def initState (getCmap : String → Palette) (layout : List (String × List Loc))
    (color_map : String) (refresh_interval_secs : ℚ) (enhance_lowkeys : Bool)
    (change_heatmap_on_refresh : Bool) (debug_mode : Bool) (t0 : ℚ) : HeatMapper :=
  initColorMap
    { debug_mode := debug_mode
      key_to_location_map := layout
      color_map_name := color_map
      color_map := getCmap color_map
      color_map_index := COLOR_MAPS.indexOf color_map
      refresh_interval := refresh_interval_secs
      enhance_lowkeys := enhance_lowkeys
      change_heatmap_on_refresh := change_heatmap_on_refresh
      start_time := t0
      elapsed_time := 0
      location_to_color := []
      location_to_count := []
      key_name_to_count := layout.map fun kv => (kv.1, 0) }

/-- The tail of `__init__` (heatmap.py lines 53-54): the constructed state
together with the one message `__send_colors_to_server` pushes before any
key-release event is processed. -/
def initAndSend (getCmap : String → Palette) (layout : List (String × List Loc))
    (color_map : String) (refresh_interval_secs : ℚ) (enhance_lowkeys : Bool)
    (change_heatmap_on_refresh : Bool) (debug_mode : Bool) (t0 : ℚ) :
    HeatMapper × List (String × RGB) :=
  let s := initState getCmap layout color_map refresh_interval_secs enhance_lowkeys
    change_heatmap_on_refresh debug_mode t0
  (s, serializeColors s.location_to_color)

/-- One iteration of the server read loop on a nonempty chunk (heatmap_server.py
lines 42-60).  `decoded` is the outcome of `json.loads` on the chunk (`none` =
ValueError, caught and logged at lines 48-51); `prev` is the binding of the
variable `color_map_str` left by earlier iterations (`none` = never bound).
The result is the document the iteration goes on to apply to the device matrix
and the new binding; `none` is the unhandled NameError raised at line 54 when
a decode failure happens before any successful decode — the `except` block has
no `continue`, so control always falls through to the apply loop. -/
def serverIteration (prev : Option (List (String × RGB)))
    (decoded : Option (List (String × RGB))) : Option (List (String × RGB)) :=
  match decoded with
  | some d => some d
  | none => prev

/-- The pure index successor of `__select_next_colormap`. -/
def nextIdxFun (n : ℕ) : ℕ := if n = COLOR_MAPS.length - 1 then 0 else n + 1

/-- A concrete stand-in for `plt.cm.get_cmap` used in closed instances of the
theorems below: each channel value is a simple function of name and input. -/
def testGetCmap : String → Palette := fun name => fun v => ((name.length : ℚ), v, v + 1)

/-- A concrete engine state: two keys on two cells, palette "hot", one-hour
refresh, enhancement off, constructed at time 0. -/
def sampleState : HeatMapper :=
  initState testGetCmap [("a", [(0, 0)]), ("b", [(0, 1)])] ("hot") 3600 false false false 0

/-- The §8 scenario engine after `n` releases of key `"a"` at time 0 (layout
`{"a": [[0,0]], "b": [[0,1]]}`, palette "hot", refresh 3600, enhancement off).
For `n = 0` the colors are the constructor's base assignment; afterwards they
are the palette at the normalized counts 1 and 0. -/
def scenarioState (getCmap : String → Palette) (n : ℕ) : HeatMapper :=
  { debug_mode := false
    key_to_location_map := [("a", [(0, 0)]), ("b", [(0, 1)])]
    color_map_name := "hot"
    color_map := getCmap ("hot")
    color_map_index := 2
    refresh_interval := 3600
    enhance_lowkeys := false
    change_heatmap_on_refresh := false
    start_time := 0
    elapsed_time := 0
    location_to_color :=
      if n = 0 then
        [((0, 0), rgbScale (getCmap ("hot") 0)), ((0, 1), rgbScale (getCmap ("hot") 0))]
      else
        [((0, 0), rgbScale (getCmap ("hot") 1)), ((0, 1), rgbScale (getCmap ("hot") 0))]
    location_to_count := [((0, 0), n), ((0, 1), 0)]
    key_name_to_count := [("a", n), ("b", 0)] }

/-- Looking up the key just written finds the new value. -/
theorem assocLookup_set_self {α β : Type} [DecidableEq α] (m : List (α × β)) (k : α) (v : β) :
    assocLookup (assocSet m k v) k = some v := by
  induction m with
  | nil => simp [assocSet, assocLookup]
  | cons p t ih =>
    by_cases h : p.1 = k
    · simp [assocSet, assocLookup, h]
    · simp [assocSet, assocLookup, h, ih]

/-- Writing one key does not disturb lookups of other keys. -/
theorem assocLookup_set_ne {α β : Type} [DecidableEq α] (m : List (α × β)) (k k' : α) (v : β)
    (h : k' ≠ k) : assocLookup (assocSet m k v) k' = assocLookup m k' := by
  have hkk : ¬k = k' := fun hx => h hx.symm
  induction m with
  | nil => simp [assocSet, assocLookup, hkk]
  | cons p t ih =>
    by_cases hp : p.1 = k
    · subst hp
      simp [assocSet, assocLookup, hkk]
    · simp only [assocSet, if_neg hp, assocLookup, ih]

/-- Every entry of `assocSet m k v` is the written pair or an old entry. -/
theorem mem_assocSet {α β : Type} [DecidableEq α] {m : List (α × β)} {k : α} {v : β}
    {p : α × β} : p ∈ assocSet m k v → p = (k, v) ∨ p ∈ m := by
  induction m with
  | nil =>
    intro h
    simpa [assocSet] using h
  | cons q t ih =>
    intro h
    by_cases hq : q.1 = k
    · rw [assocSet, if_pos hq, List.mem_cons] at h
      rcases h with h | h
      · exact Or.inl h
      · exact Or.inr (List.mem_cons_of_mem _ h)
    · rw [assocSet, if_neg hq, List.mem_cons] at h
      rcases h with h | h
      · exact Or.inr (h ▸ List.mem_cons_self _ _)
      · rcases ih h with h1 | h1
        · exact Or.inl h1
        · exact Or.inr (List.mem_cons_of_mem _ h1)

/-- A successful lookup names an actual entry of the list. -/
theorem assocLookup_mem {α β : Type} [DecidableEq α] {m : List (α × β)} {k : α} {v : β} :
    assocLookup m k = some v → (k, v) ∈ m := by
  induction m with
  | nil =>
    intro h
    simp [assocLookup] at h
  | cons q t ih =>
    intro h
    rw [assocLookup] at h
    by_cases hq : q.1 = k
    · rw [if_pos hq] at h
      obtain rfl : q.2 = v := by simpa using h
      exact hq ▸ List.mem_cons_self _ _
    · exact List.mem_cons_of_mem _ (ih (by rwa [if_neg hq] at h))

/-- Writing a fresh key appends it at the end (Python dict insertion order). -/
theorem assocSet_of_not_mem {α β : Type} [DecidableEq α] {m : List (α × β)} {k : α} (v : β)
    (h : k ∉ m.map Prod.fst) : assocSet m k v = m ++ [(k, v)] := by
  induction m with
  | nil => rfl
  | cons q t ih =>
    have hq : q.1 ≠ k := by
      intro hx
      exact h (by simp [hx])
    rw [assocSet, if_neg hq, ih (by intro hx; exact h (by simp [hx]))]
    rfl

/-- Lookup after folding a constant-valued write over a list of keys. -/
theorem assocLookup_foldl_setConst {α β : Type} [DecidableEq α] (L : List α) (m : List (α × β))
    (v : β) (k : α) :
    assocLookup (L.foldl (fun m l => assocSet m l v) m) k
      = if k ∈ L then some v else assocLookup m k := by
  induction L generalizing m with
  | nil => simp
  | cons a L ih =>
    rw [List.foldl_cons, ih]
    by_cases hk : k = a
    · subst hk
      by_cases hL : k ∈ L <;> simp [hL, assocLookup_set_self]
    · by_cases hL : k ∈ L <;>
        simp [hL, hk, assocLookup_set_ne _ _ _ _ hk]

/-- Entries after folding a constant-valued write: the written value or an
entry of the starting list. -/
theorem mem_foldl_setConst {α β : Type} [DecidableEq α] {L : List α} {m : List (α × β)}
    {v : β} {p : α × β} : p ∈ L.foldl (fun m l => assocSet m l v) m → p.2 = v ∨ p ∈ m := by
  induction L generalizing m with
  | nil => exact fun h => Or.inr h
  | cons a L ih =>
    intro h
    rw [List.foldl_cons] at h
    rcases ih h with h1 | h1
    · exact Or.inl h1
    · rcases mem_assocSet h1 with h2 | h2
      · exact Or.inl (by rw [h2])
      · exact Or.inr h2

/-- Char value is a left inverse of `digitChar` on decimal digits. -/
theorem charVal_digitChar : ∀ d, d < 10 → charVal (digitChar d) = d := by decide

/-- `digitChar` of a decimal digit is a digit character. -/
theorem isDigitCh_digitChar : ∀ d, d < 10 → isDigitCh (digitChar d) = true := by decide

/-- A digit character is not a comma. -/
theorem isDigitCh_ne_comma {c : Char} (h : isDigitCh c = true) : c ≠ ',' := by
  intro hc
  subst hc
  simp [isDigitCh] at h

/-- Every character of a rendered natural number is a digit character. -/
theorem mem_natToChars_isDigit {n : ℕ} {c : Char} (h : c ∈ natToChars n) :
    isDigitCh c = true := by
  by_cases hn : n = 0
  · subst hn
    simp only [natToChars, if_pos, List.mem_singleton] at h
    subst h
    decide
  · rw [natToChars, if_neg hn, List.mem_reverse, List.mem_map] at h
    obtain ⟨d, hd, rfl⟩ := h
    exact isDigitCh_digitChar d (Nat.digits_lt_base (by norm_num) hd)

/-- A rendered natural number is never the empty character run. -/
theorem natToChars_ne_nil (n : ℕ) : natToChars n ≠ [] := by
  by_cases hn : n = 0
  · subst hn
    simp [natToChars]
  · rw [natToChars, if_neg hn]
    simp only [ne_eq, List.reverse_eq_nil_iff, List.map_eq_nil_iff]
    exact Nat.digits_ne_nil_iff_ne_zero.mpr hn

/-- Parsing a rendered natural number gives it back. -/
theorem parseNatChars_natToChars (n : ℕ) : parseNatChars (natToChars n) = some n := by
  by_cases hn : n = 0
  · subst hn
    decide
  · have hall : (natToChars n).all isDigitCh = true :=
      List.all_eq_true.mpr fun c hc => mem_natToChars_isDigit hc
    rw [parseNatChars, if_pos ⟨natToChars_ne_nil n, hall⟩, natToChars, if_neg hn,
      List.reverse_reverse, List.map_map]
    have hmap : (Nat.digits 10 n).map (charVal ∘ digitChar) = Nat.digits 10 n := by
      rw [show Nat.digits 10 n = (Nat.digits 10 n).map id by rw [List.map_id]]
      rw [List.map_map]
      exact List.map_congr_left fun d hd => by
        simpa using charVal_digitChar d (Nat.digits_lt_base (by norm_num) (by simpa using hd))
    rw [hmap, Nat.ofDigits_digits]

theorem takeWhile_append_all {α : Type} {p : α → Bool} (l₁ : List α) (x : α) (l₂ : List α)
    (h : ∀ c ∈ l₁, p c = true) (hx : p x = false) :
    (l₁ ++ x :: l₂).takeWhile p = l₁ := by
  induction l₁ with
  | nil => simpa using @List.takeWhile_cons_of_neg _ p x l₂ (by simp [hx])
  | cons a t ih =>
    rw [List.cons_append, List.takeWhile_cons_of_pos (h a (List.mem_cons_self _ _)),
      ih fun c hc => h c (List.mem_cons_of_mem _ hc)]

theorem dropWhile_append_all {α : Type} {p : α → Bool} (l₁ : List α) (x : α) (l₂ : List α)
    (h : ∀ c ∈ l₁, p c = true) (hx : p x = false) :
    (l₁ ++ x :: l₂).dropWhile p = x :: l₂ := by
  induction l₁ with
  | nil => simpa using @List.dropWhile_cons_of_neg _ p x l₂ (by simp [hx])
  | cons a t ih =>
    rw [List.cons_append, List.dropWhile_cons_of_pos (h a (List.mem_cons_self _ _))]
    exact ih fun c hc => h c (List.mem_cons_of_mem _ hc)

theorem evalSecondComponent_eq (rest2 : List Char) (b : ℕ)
    (h1 : parseNatChars (rest2.takeWhile isDigitCh) = some b)
    (h2 : rest2.dropWhile isDigitCh = [')']) : evalSecondComponent rest2 = some b := by
  unfold evalSecondComponent
  rw [h1, h2]
  rfl

theorem evalFirstSplit_eq (rest : List Char) (a : ℕ) (rest2 : List Char)
    (h1 : parseNatChars (rest.takeWhile notCommaCh) = some a)
    (h2 : rest.dropWhile notCommaCh = ',' :: ' ' :: rest2) :
    evalFirstSplit rest = (evalSecondComponent rest2).map fun b => (a, b) := by
  unfold evalFirstSplit
  rw [h1, h2]
  rfl

theorem literalEval_pyStrPair (p : Loc) : literalEvalPair (pyStrPair p) = some p := by
  obtain ⟨a, b⟩ := p
  have hdig : ∀ n : ℕ, ∀ c ∈ natToChars n, notCommaCh c = true := by
    intro n c hc
    simp only [notCommaCh, ne_eq, decide_not, Bool.not_eq_true', decide_eq_false_iff_not]
    exact isDigitCh_ne_comma (mem_natToChars_isDigit hc)
  have e1 := @takeWhile_append_all _ notCommaCh
    (natToChars a) ',' (' ' :: (natToChars b ++ [')'])) (hdig a) (by decide)
  have e2 := @dropWhile_append_all _ notCommaCh
    (natToChars a) ',' (' ' :: (natToChars b ++ [')'])) (hdig a) (by decide)
  have e3 := @takeWhile_append_all _ isDigitCh (natToChars b) ')' []
    (fun c hc => mem_natToChars_isDigit hc) (by decide)
  have e4 := @dropWhile_append_all _ isDigitCh (natToChars b) ')' []
    (fun c hc => mem_natToChars_isDigit hc) (by decide)
  show literalEvalChars ('(' :: (natToChars a ++ (',' :: (' ' :: (natToChars b ++ [')'])))))
    = some (a, b)
  have step1 :
      literalEvalChars ('(' :: (natToChars a ++ (',' :: (' ' :: (natToChars b ++ [')'])))))
      = evalFirstSplit (natToChars a ++ (',' :: (' ' :: (natToChars b ++ [')'])))) := rfl
  rw [step1,
    evalFirstSplit_eq _ a (natToChars b ++ [')'])
      (by rw [e1, parseNatChars_natToChars]) e2,
    evalSecondComponent_eq _ b (by rw [e3, parseNatChars_natToChars]) e4]
  rfl

/-- The canonical location string form is injective. -/
theorem pyStrPair_inj {p q : Loc} (h : pyStrPair p = pyStrPair q) : p = q := by
  have h1 := literalEval_pyStrPair p
  rw [h, literalEval_pyStrPair q] at h1
  exact (Option.some.inj h1).symm

/-- Looking up a canonical key in a serialized assignment is looking up the
location in the assignment itself. -/
theorem assocLookup_serialize (cols : List (Loc × RGB)) (k : Loc) :
    assocLookup (serializeColors cols) (pyStrPair k) = assocLookup cols k := by
  induction cols with
  | nil => rfl
  | cons p t ih =>
    show (if pyStrPair p.1 = pyStrPair k then some p.2 else _) = _
    by_cases hk : p.1 = k
    · rw [if_pos (by rw [hk]), assocLookup, if_pos hk]
    · rw [if_neg fun hx => hk (pyStrPair_inj hx), assocLookup, if_neg hk]
      exact ih

/-- Decoding a serialized assignment rebuilds the dict entry by entry. -/
theorem decodeColorsGo_serialize (cols : List (Loc × RGB)) :
    ∀ m, decodeColorsGo (serializeColors cols) m
      = some (cols.foldl (fun m p => assocSet m p.1 p.2) m) := by
  induction cols with
  | nil => intro m; rfl
  | cons p t ih =>
    intro m
    show decodeColorsGo ((pyStrPair p.1, p.2) :: serializeColors t) m = _
    rw [decodeColorsGo, literalEval_pyStrPair]
    exact ih (assocSet m p.1 p.2)

/-- Rebuilding a dict from distinct fresh keys reproduces the entry list. -/
theorem foldl_assocSet_fresh (cols : List (Loc × RGB)) :
    ∀ m, (∀ k ∈ cols.map Prod.fst, k ∉ m.map Prod.fst) → (cols.map Prod.fst).Nodup →
      cols.foldl (fun m p => assocSet m p.1 p.2) m = m ++ cols := by
  induction cols with
  | nil => intro m _ _; simp
  | cons p t ih =>
    intro m hfresh hnodup
    rw [List.foldl_cons, assocSet_of_not_mem p.2 (hfresh p.1 (by simp)), Prod.mk.eta]
    have hp1 : p.1 ∉ t.map Prod.fst := by
      have := hnodup
      rw [List.map_cons, List.nodup_cons] at this
      exact this.1
    rw [ih (m ++ [p])
      (by
        intro k hk
        rw [List.map_append, List.mem_append]
        rintro (hm | hsing)
        · exact hfresh k (by simp [hk]) hm
        · have : k = p.1 := by simpa using hsing
          exact hp1 (this ▸ hk))
      (by
        have := hnodup
        rw [List.map_cons, List.nodup_cons] at this
        exact this.2)]
    rw [List.append_assoc, List.singleton_append]

/-- The left argument never exceeds the larger of the two. -/
theorem le_ratMax_left (a b : ℚ) : a ≤ ratMax a b := by
  unfold ratMax
  split
  · assumption
  · exact le_refl a

/-- A left fold of `ratMax` dominates its initial value. -/
theorem le_foldl_max_init (xs : List ℚ) : ∀ x : ℚ, x ≤ xs.foldl ratMax x := by
  induction xs with
  | nil => intro x; exact le_refl x
  | cons a t ih => intro x; exact le_trans (le_ratMax_left x a) (ih (ratMax x a))

/-- The maximum of a vector of non-negative values is non-negative. -/
theorem listMax_nonneg {xs : List ℚ} {mx : ℚ} (h : listMax xs = some mx)
    (hnn : ∀ x ∈ xs, 0 ≤ x) : 0 ≤ mx := by
  match xs, h with
  | x :: rest, h =>
    have hx : mx = rest.foldl ratMax x := (Option.some.inj h).symm
    exact hx ▸ le_trans (hnn x (List.mem_cons_self _ _)) (le_foldl_max_init rest x)

/-- `getD` through `map` at an in-range index. -/
theorem getD_map_of_lt {α β : Type} (f : α → β) (l : List α) :
    ∀ i, i < l.length → ∀ (d : β) (e : α), (l.map f).getD i d = f (l.getD i e) := by
  induction l with
  | nil => intro i hi; simp at hi
  | cons a t ih =>
    intro i hi d e
    match i with
    | 0 => rfl
    | j + 1 => exact ih j (by simpa using hi) d e

/-- The in-range `getD` entry is a member of the list. -/
theorem getD_mem_of_lt {α : Type} (l : List α) : ∀ i, i < l.length → ∀ d : α,
    l.getD i d ∈ l := by
  induction l with
  | nil => intro i hi; simp at hi
  | cons a t ih =>
    intro i hi d
    match i with
    | 0 => exact List.mem_cons_self _ _
    | j + 1 => exact List.mem_cons_of_mem _ (ih j (by simpa using hi) d)

/-- The cursor after a rotation. -/
theorem selectNext_index (g : String → Palette) (s : HeatMapper) :
    (selectNextColormap g s).color_map_index = nextIdxFun s.color_map_index := rfl

/-- The name after a rotation is the registry entry at the new cursor. -/
theorem selectNext_name (g : String → Palette) (s : HeatMapper) :
    (selectNextColormap g s).color_map_name
      = COLOR_MAPS.getD (selectNextColormap g s).color_map_index ("") := rfl

/-- Iterated rotation tracks the pure index function. -/
theorem iterate_selectNext_index (g : String → Palette) :
    ∀ (k : ℕ) (s : HeatMapper),
      ((selectNextColormap g)^[k] s).color_map_index = nextIdxFun^[k] s.color_map_index := by
  intro k
  induction k with
  | zero => intro s; rfl
  | succ n ih =>
    intro s
    rw [Function.iterate_succ_apply, Function.iterate_succ_apply, ih,
      selectNext_index]

/-- Ten applications of the index successor return any registry index. -/
theorem nextIdxFun_iterate_ten : ∀ n, n < COLOR_MAPS.length → nextIdxFun^[10] n = n := by
  decide

/-- Rotation never touches the per-key counters. -/
theorem selectNext_keyNames (g : String → Palette) (s : HeatMapper) :
    (selectNextColormap g s).key_name_to_count = s.key_name_to_count := rfl

/-- The refresh check never touches the layout. -/
theorem refreshStep_layout (g : String → Palette) (s : HeatMapper) (now : ℚ) :
    (refreshStep g s now).key_to_location_map = s.key_to_location_map := by
  simp only [refreshStep]
  split
  · split <;> rfl
  · rfl

/-- The refresh check never touches the per-key counters. -/
theorem refreshStep_keyNames (g : String → Palette) (s : HeatMapper) (now : ℚ) :
    (refreshStep g s now).key_name_to_count = s.key_name_to_count := by
  simp only [refreshStep]
  split
  · split <;> rfl
  · rfl

/-- Counter lookup after a reset: layout locations read 0, others untouched. -/
theorem initColorMap_counts_lookup (t : HeatMapper) (loc : Loc) :
    assocLookup (initColorMap t).location_to_count loc
      = if loc ∈ layoutLocations t.key_to_location_map then some 0
        else assocLookup t.location_to_count loc := by
  show assocLookup ((layoutLocations t.key_to_location_map).foldl
    (fun m l => assocSet m l 0) t.location_to_count) loc = _
  rw [assocLookup_foldl_setConst (layoutLocations t.key_to_location_map)
    t.location_to_count 0 loc]
  split
  · rfl
  · rfl

/-- Color lookup after a reset: layout locations read the base color. -/
theorem initColorMap_colors_lookup (t : HeatMapper) (loc : Loc) :
    assocLookup (initColorMap t).location_to_color loc
      = if loc ∈ layoutLocations t.key_to_location_map then some (rgbScale (t.color_map 0))
        else assocLookup t.location_to_color loc := by
  show assocLookup ((layoutLocations t.key_to_location_map).foldl
    (fun m l => assocSet m l (rgbScale (t.color_map 0))) t.location_to_color) loc = _
  rw [assocLookup_foldl_setConst (layoutLocations t.key_to_location_map)
    t.location_to_color (rgbScale (t.color_map 0)) loc]
  split
  · rfl
  · rfl

/-- When the elapsed time exceeds the interval, the refresh branch runs: the
palette optionally rotates, counts and colors reset, and the clock restarts. -/
theorem refreshStep_of_gt (g : String → Palette) (s : HeatMapper) (now : ℚ)
    (h : now - s.start_time > s.refresh_interval) :
    refreshStep g s now
      = { initColorMap (if s.change_heatmap_on_refresh
            then selectNextColormap g { s with elapsed_time := now - s.start_time }
            else { s with elapsed_time := now - s.start_time }) with start_time := now } := by
  simp only [refreshStep]
  split
  · rfl
  · rename_i hc
    exact absurd h hc

/-- When the elapsed time stays within the interval, only the elapsed-time
measurement is refreshed. -/
theorem refreshStep_of_le (g : String → Palette) (s : HeatMapper) (now : ℚ)
    (h : now - s.start_time ≤ s.refresh_interval) :
    refreshStep g s now = { s with elapsed_time := now - s.start_time } := by
  simp only [refreshStep]
  split
  · rename_i hc
    exact absurd hc (not_lt.mpr h)
  · rfl

/-- With the transform off, the transform argument is irrelevant. -/
theorem normalizeCounts_false_eq (enh : ℚ → ℚ) (xs : List ℚ) :
    normalizeCounts false enh xs = normalizeCounts false id xs := rfl

/-- With the transform on, normalization factors through the transformed vector. -/
theorem normalizeCounts_true_eq (enh : ℚ → ℚ) (xs : List ℚ) :
    normalizeCounts true enh xs = normalizeCounts false id (xs.map enh) := rfl

/-- Core monotonicity of `(x - min) / max` over a non-negative vector. -/
theorem normalize_getD_mono (xs : List ℚ) (hnn : ∀ x ∈ xs, 0 ≤ x) (ns : List ℚ)
    (hns : normalizeCounts false id xs = some ns) (i j : ℕ)
    (hi : i < xs.length) (hj : j < xs.length)
    (hle : xs.getD j 0 ≤ xs.getD i 0) : ns.getD j 0 ≤ ns.getD i 0 := by
  rcases xs with _ | ⟨x, rest⟩
  · simp at hi
  · have hns' : (if rest.foldl ratMax x = 0 then none
        else some ((x :: rest).map fun c =>
          (c - rest.foldl ratMin x) / rest.foldl ratMax x)) = some ns := hns
    by_cases hmx : rest.foldl ratMax x = 0
    · rw [if_pos hmx] at hns'
      simp at hns'
    · rw [if_neg hmx] at hns'
      have hmxpos : 0 < rest.foldl ratMax x :=
        lt_of_le_of_ne (@listMax_nonneg (x :: rest) (rest.foldl ratMax x) rfl hnn)
          (Ne.symm hmx)
      obtain rfl : ns = (x :: rest).map fun c =>
          (c - rest.foldl ratMin x) / rest.foldl ratMax x := (Option.some.inj hns').symm
      rw [getD_map_of_lt _ _ i hi _ 0, getD_map_of_lt _ _ j hj _ 0]
      exact div_le_div_of_nonneg_right
        (sub_le_sub_right hle (rest.foldl ratMin x)) hmxpos.le

/-- C1: in `__update_color_map`, when the maximum of the (optionally
transformed) Press-Counter values is 0, the code divides by zero: pressing the
mapped-but-locationless key `"a"` in the layout `{"a": [], "b": [[0,0]]}`
leaves every count 0, and the normalization produces an invalid (non-finite)
value — modelled `none` — instead of the specified all-zero output with
`palette(0)` colors. -/
theorem c1_zero_max_produces_invalid_value :
    onKeyRelease testGetCmap id
        (initState testGetCmap [("a", []), ("b", [(0, 0)])] ("hot") 3600 false false false 0)
        ("a") 0 = none
    ∧ normalizeCounts false id [(0 : ℚ)] = none := by
  constructor
  · with_unfolding_all rfl
  · with_unfolding_all rfl

/-- C2: the server's read loop does not skip an iteration whose chunk fails to
decode.  `serverIteration prev decoded` is the document the loop body applies
after the `try/except` around `json.loads`: with no previously bound
`color_map_str` a decode failure crashes with NameError (`none`), and with one
it re-applies the stale document instead of applying nothing. -/
theorem c2_decode_failure_not_skipped :
    serverIteration none none = none
    ∧ serverIteration (some [(pyStrPair (0, 0), [255, 0, 0])]) none
      = some [(pyStrPair (0, 0), [255, 0, 0])] := ⟨rfl, rfl⟩

/-- C3 counterexample: a release of the unmapped key `"z"` at a time that
crosses the refresh interval does change the engine state — the Press
Counters are reset — so the claim's "any call, including one whose elapsed
time exceeds the refresh interval" is false on the code. -/
theorem c3_counterexample_unmapped_key_after_interval :
    ((onKeyRelease testGetCmap id sampleState ("a") 0).bind
        fun s => onKeyRelease testGetCmap id s ("z") 4000).map HeatMapper.location_to_count
      ≠ (onKeyRelease testGetCmap id sampleState ("a") 0).map HeatMapper.location_to_count := by
  with_unfolding_all exact of_decide_eq_true rfl

/-- C3 (amended): a release of a key name not in the Layout Map raises no
error — the handler returns the refresh-checked state — and when the elapsed
time does not exceed the refresh interval it leaves every component of the
state unchanged except the recorded elapsed-time measurement. -/
theorem c3_unmapped_key_no_state_change (g : String → Palette) (enh : ℚ → ℚ)
    (s : HeatMapper) (key : String) (now : ℚ)
    (hunmapped : assocLookup s.key_to_location_map (normalizeKeyName key) = none) :
    onKeyRelease g enh s key now = some (refreshStep g s now)
    ∧ (now - s.start_time ≤ s.refresh_interval →
        onKeyRelease g enh s key now = some { s with elapsed_time := now - s.start_time }) := by
  have hl : assocLookup (refreshStep g s now).key_to_location_map (normalizeKeyName key)
      = none := by
    rw [refreshStep_layout]
    exact hunmapped
  have h1 : onKeyRelease g enh s key now = some (refreshStep g s now) := by
    rw [onKeyRelease, processKey, hl]
  refine ⟨h1, fun hle => ?_⟩
  rw [h1, refreshStep_of_le g s now hle]

/-- Witness for C3's amended theorem at a concrete state and unmapped key. -/
theorem c3_unmapped_key_no_state_change_witness :
    assocLookup sampleState.key_to_location_map (normalizeKeyName ("z")) = none
    ∧ (onKeyRelease testGetCmap id sampleState ("z") 7 = some (refreshStep testGetCmap sampleState 7)
      ∧ (7 - sampleState.start_time ≤ sampleState.refresh_interval →
          onKeyRelease testGetCmap id sampleState ("z") 7
            = some { sampleState with elapsed_time := 7 - sampleState.start_time })) :=
  ⟨by with_unfolding_all rfl,
    c3_unmapped_key_no_state_change testGetCmap id sampleState ("z") 7
      (by with_unfolding_all rfl)⟩

/-- C5: encoding a Color Assignment with the client's wire encoding
(`str(location)` keys) and decoding the document with the server's decoder
(`literal_eval` on each key) reproduces exactly the same Location-to-RGB
mapping, for any assignment with distinct locations. -/
theorem c5_encode_decode_roundtrip (cols : List (Loc × RGB))
    (h : (cols.map Prod.fst).Nodup) :
    decodeColors (serializeColors cols) = some cols := by
  rw [decodeColors, decodeColorsGo_serialize,
    foldl_assocSet_fresh cols [] (by simp) h, List.nil_append]

/-- Witness for C5 at a concrete two-entry assignment. -/
theorem c5_encode_decode_roundtrip_witness :
    (([((0, 0), [255, 0, 0]), ((10, 23), [1, 2, 3])] : List (Loc × RGB)).map Prod.fst).Nodup
    ∧ decodeColors (serializeColors [((0, 0), [255, 0, 0]), ((10, 23), [1, 2, 3])])
      = some [((0, 0), [255, 0, 0]), ((10, 23), [1, 2, 3])] :=
  ⟨by decide, c5_encode_decode_roundtrip _ (by decide)⟩

/-- C8: `__select_next_colormap` advances the cursor circularly: applying it
`COLOR_MAPS.length` times returns the cursor and the active palette name to
their original values, from any registry position with a consistent name. -/
theorem c8_palette_rotation_circular (g : String → Palette) (s : HeatMapper)
    (hidx : s.color_map_index < COLOR_MAPS.length)
    (hname : s.color_map_name = COLOR_MAPS.getD s.color_map_index ("")) :
    ((selectNextColormap g)^[COLOR_MAPS.length] s).color_map_index = s.color_map_index
    ∧ ((selectNextColormap g)^[COLOR_MAPS.length] s).color_map_name = s.color_map_name := by
  have hidx10 : ((selectNextColormap g)^[COLOR_MAPS.length] s).color_map_index
      = s.color_map_index := by
    rw [iterate_selectNext_index]
    exact nextIdxFun_iterate_ten _ hidx
  refine ⟨hidx10, ?_⟩
  have hname10 : ((selectNextColormap g)^[COLOR_MAPS.length] s).color_map_name
      = COLOR_MAPS.getD (((selectNextColormap g)^[COLOR_MAPS.length] s).color_map_index)
          ("") := by
    rw [show COLOR_MAPS.length = 9 + 1 from rfl, Function.iterate_succ_apply']
    exact selectNext_name g _
  rw [hname10, hidx10, ← hname]

/-- Witness for C8 at the sample state (cursor 2, name "hot"). -/
theorem c8_palette_rotation_circular_witness :
    (sampleState.color_map_index < COLOR_MAPS.length
      ∧ sampleState.color_map_name = COLOR_MAPS.getD sampleState.color_map_index (""))
    ∧ (((selectNextColormap testGetCmap)^[COLOR_MAPS.length] sampleState).color_map_index
        = sampleState.color_map_index
      ∧ ((selectNextColormap testGetCmap)^[COLOR_MAPS.length] sampleState).color_map_name
        = sampleState.color_map_name) :=
  ⟨⟨by with_unfolding_all exact of_decide_eq_true rfl,
    by with_unfolding_all exact of_decide_eq_true rfl⟩,
    c8_palette_rotation_circular testGetCmap sampleState
      (by with_unfolding_all exact of_decide_eq_true rfl)
      (by with_unfolding_all exact of_decide_eq_true rfl)⟩

/-- C9: a refresh reset triggered inside `on_key_release` clears counts and
colors but leaves every Key-Name Counter exactly as it was before the reset. -/
theorem c9_reset_preserves_key_name_counters (g : String → Palette) (s : HeatMapper)
    (now : ℚ) (_htrigger : now - s.start_time > s.refresh_interval) :
    (refreshStep g s now).key_name_to_count = s.key_name_to_count :=
  refreshStep_keyNames g s now

/-- Witness for C9 at the sample state with a threshold-crossing time. -/
theorem c9_reset_preserves_key_name_counters_witness :
    4000 - sampleState.start_time > sampleState.refresh_interval
    ∧ (refreshStep testGetCmap sampleState 4000).key_name_to_count
      = sampleState.key_name_to_count :=
  ⟨by with_unfolding_all exact of_decide_eq_true rfl,
    c9_reset_preserves_key_name_counters testGetCmap sampleState 4000
      (by with_unfolding_all exact of_decide_eq_true rfl)⟩

/-- C4: on a release whose elapsed time exceeds the refresh interval, the
reset runs before the triggering key's own count is applied —
`on_key_release` factors as the key-processing step applied to the
refresh-checked state — and immediately after the reset every Press Counter
reads 0 (every layout location reads exactly 0) and every Color Assignment
entry is `palette(0)` under the possibly newly rotated active palette. -/
theorem c4_reset_precedes_key_count (g : String → Palette) (enh : ℚ → ℚ)
    (s : HeatMapper) (key : String) (now : ℚ)
    (hcnt : ∀ p ∈ s.location_to_count, p.1 ∈ layoutLocations s.key_to_location_map)
    (hcol : ∀ p ∈ s.location_to_color, p.1 ∈ layoutLocations s.key_to_location_map)
    (hgt : now - s.start_time > s.refresh_interval) :
    (∀ loc n, assocLookup (refreshStep g s now).location_to_count loc = some n → n = 0)
    ∧ (∀ loc ∈ layoutLocations s.key_to_location_map,
        assocLookup (refreshStep g s now).location_to_count loc = some 0)
    ∧ (∀ loc c, assocLookup (refreshStep g s now).location_to_color loc = some c →
        c = rgbScale ((refreshStep g s now).color_map 0))
    ∧ onKeyRelease g enh s key now = processKey g enh (refreshStep g s now) key := by
  have hr := refreshStep_of_gt g s now hgt
  set t := if s.change_heatmap_on_refresh
      then selectNextColormap g { s with elapsed_time := now - s.start_time }
      else { s with elapsed_time := now - s.start_time } with ht
  have htlay : t.key_to_location_map = s.key_to_location_map := by
    rw [ht]
    split <;> rfl
  have htcnt : t.location_to_count = s.location_to_count := by
    rw [ht]
    split <;> rfl
  have htcol : t.location_to_color = s.location_to_color := by
    rw [ht]
    split <;> rfl
  refine ⟨?_, ?_, ?_, ?_⟩
  · intro loc n h
    rw [hr] at h
    have h2 : assocLookup (initColorMap t).location_to_count loc = some n := h
    rw [initColorMap_counts_lookup] at h2
    by_cases hm : loc ∈ layoutLocations t.key_to_location_map
    · rw [if_pos hm] at h2
      exact (Option.some.inj h2).symm
    · rw [if_neg hm, htcnt] at h2
      refine absurd ?_ hm
      rw [htlay]
      exact hcnt _ (assocLookup_mem h2)
  · intro loc hm
    rw [hr]
    show assocLookup (initColorMap t).location_to_count loc = some 0
    rw [initColorMap_counts_lookup, htlay, htcnt, if_pos hm]
  · intro loc c h
    rw [hr] at h
    have h2 : assocLookup (initColorMap t).location_to_color loc = some c := h
    rw [initColorMap_colors_lookup] at h2
    have hcm : (refreshStep g s now).color_map = t.color_map := by
      rw [hr]
      rfl
    rw [hcm]
    by_cases hm : loc ∈ layoutLocations t.key_to_location_map
    · rw [if_pos hm] at h2
      exact (Option.some.inj h2).symm
    · rw [if_neg hm, htcol] at h2
      refine absurd ?_ hm
      rw [htlay]
      exact hcol _ (assocLookup_mem h2)
  · rw [onKeyRelease]

/-- Witness for C4 at the sample state with a threshold-crossing time. -/
theorem c4_reset_precedes_key_count_witness :
    ((∀ p ∈ sampleState.location_to_count,
        p.1 ∈ layoutLocations sampleState.key_to_location_map)
      ∧ (∀ p ∈ sampleState.location_to_color,
          p.1 ∈ layoutLocations sampleState.key_to_location_map)
      ∧ 4000 - sampleState.start_time > sampleState.refresh_interval)
    ∧ ((∀ loc n,
        assocLookup (refreshStep testGetCmap sampleState 4000).location_to_count loc
          = some n → n = 0)
      ∧ (∀ loc ∈ layoutLocations sampleState.key_to_location_map,
          assocLookup (refreshStep testGetCmap sampleState 4000).location_to_count loc
            = some 0)
      ∧ (∀ loc c,
          assocLookup (refreshStep testGetCmap sampleState 4000).location_to_color loc
            = some c →
          c = rgbScale ((refreshStep testGetCmap sampleState 4000).color_map 0))
      ∧ onKeyRelease testGetCmap id sampleState ("q") 4000
        = processKey testGetCmap id (refreshStep testGetCmap sampleState 4000) ("q")) :=
  ⟨⟨by with_unfolding_all exact of_decide_eq_true rfl,
    by with_unfolding_all exact of_decide_eq_true rfl,
    by with_unfolding_all exact of_decide_eq_true rfl⟩,
    c4_reset_precedes_key_count testGetCmap id sampleState ("q") 4000
      (by with_unfolding_all exact of_decide_eq_true rfl)
      (by with_unfolding_all exact of_decide_eq_true rfl)
      (by with_unfolding_all exact of_decide_eq_true rfl)⟩

/-- C7: for a fixed enhancement flag (the flag stored in the state) and any
monotone, nonnegativity-preserving contrast transform (as `np.sqrt` is), the
normalization of `__update_color_map` is monotone: a location with a strictly
greater Press-Counter value gets a normalized value at least as large. -/
theorem c7_normalized_monotone_in_counts (enh : ℚ → ℚ) (s : HeatMapper) (ns : List ℚ)
    (hmono : ∀ a b : ℚ, 0 ≤ a → a ≤ b → enh a ≤ enh b)
    (hpos : ∀ a : ℚ, 0 ≤ a → 0 ≤ enh a)
    (hns : normalizeCounts s.enhance_lowkeys enh
        (s.location_to_count.map fun p => (p.2 : ℚ)) = some ns)
    (i j : ℕ) (hi : i < s.location_to_count.length) (hj : j < s.location_to_count.length)
    (hgt : (s.location_to_count.getD j ((0, 0), 0)).2
        < (s.location_to_count.getD i ((0, 0), 0)).2) :
    ns.getD j 0 ≤ ns.getD i 0 := by
  set counts := s.location_to_count.map fun p => (p.2 : ℚ) with hc
  have hleni : i < counts.length := by
    rw [hc, List.length_map]
    exact hi
  have hlenj : j < counts.length := by
    rw [hc, List.length_map]
    exact hj
  have hnn : ∀ x ∈ counts, 0 ≤ x := by
    intro x hx
    rw [hc] at hx
    obtain ⟨p, hp, rfl⟩ := List.mem_map.mp hx
    exact Nat.cast_nonneg _
  have hle : counts.getD j 0 ≤ counts.getD i 0 := by
    rw [hc, getD_map_of_lt _ _ i hi _ ((0, 0), 0), getD_map_of_lt _ _ j hj _ ((0, 0), 0)]
    exact_mod_cast hgt.le
  cases hflag : s.enhance_lowkeys with
  | false =>
    rw [hflag, normalizeCounts_false_eq] at hns
    exact normalize_getD_mono counts hnn ns hns i j hleni hlenj hle
  | true =>
    rw [hflag, normalizeCounts_true_eq] at hns
    refine normalize_getD_mono (counts.map enh) ?_ ns hns i j ?_ ?_ ?_
    · intro x hx
      obtain ⟨c, hcm, rfl⟩ := List.mem_map.mp hx
      exact hpos c (hnn c hcm)
    · rw [List.length_map]
      exact hleni
    · rw [List.length_map]
      exact hlenj
    · rw [getD_map_of_lt _ _ i hleni _ 0, getD_map_of_lt _ _ j hlenj _ 0]
      exact hmono _ _ (hnn _ (getD_mem_of_lt counts j hlenj 0)) hle

/-- Witness for C7: enhancement off, counts (3, 0), comparing the two cells. -/
theorem c7_normalized_monotone_in_counts_witness :
    ((∀ a b : ℚ, 0 ≤ a → a ≤ b → id a ≤ id b)
      ∧ (∀ a : ℚ, 0 ≤ a → 0 ≤ id a)
      ∧ normalizeCounts (scenarioState testGetCmap 3).enhance_lowkeys id
          ((scenarioState testGetCmap 3).location_to_count.map fun p => (p.2 : ℚ))
          = some [1, 0]
      ∧ 0 < (scenarioState testGetCmap 3).location_to_count.length
      ∧ 1 < (scenarioState testGetCmap 3).location_to_count.length
      ∧ ((scenarioState testGetCmap 3).location_to_count.getD 1 ((0, 0), 0)).2
        < ((scenarioState testGetCmap 3).location_to_count.getD 0 ((0, 0), 0)).2)
    ∧ ([(1 : ℚ), 0].getD 1 0 ≤ [(1 : ℚ), 0].getD 0 0) :=
  ⟨⟨fun _ _ _ h => h, fun _ h => h,
    by norm_num [scenarioState, normalizeCounts, listMin, listMax, ratMin, ratMax],
    by with_unfolding_all exact of_decide_eq_true rfl,
    by with_unfolding_all exact of_decide_eq_true rfl,
    by with_unfolding_all exact of_decide_eq_true rfl⟩,
    c7_normalized_monotone_in_counts id (scenarioState testGetCmap 3) [1, 0]
      (fun _ _ _ h => h) (fun _ h => h)
      (by norm_num [scenarioState, normalizeCounts, listMin, listMax, ratMin, ratMax])
      0 1 (by with_unfolding_all exact of_decide_eq_true rfl)
      (by with_unfolding_all exact of_decide_eq_true rfl)
      (by with_unfolding_all exact of_decide_eq_true rfl)⟩

/-- C10: at construction, before any key-release event, the engine sends one
complete encoded Color Assignment in which every layout location is assigned
`palette(0)` — the integer-scaled base color of the configured palette — and
every entry of the message carries that base color. -/
theorem c10_constructor_sends_base_assignment (g : String → Palette)
    (layout : List (String × List Loc)) (name : String) (ri : ℚ)
    (el ch dbg : Bool) (t0 : ℚ) :
    (∀ loc ∈ layoutLocations layout,
      assocLookup (initAndSend g layout name ri el ch dbg t0).2 (pyStrPair loc)
        = some (rgbScale (g name 0)))
    ∧ ∀ p ∈ (initAndSend g layout name ri el ch dbg t0).2, p.2 = rgbScale (g name 0) := by
  constructor
  · intro loc hloc
    show assocLookup (serializeColors
      (initState g layout name ri el ch dbg t0).location_to_color) (pyStrPair loc) = _
    rw [assocLookup_serialize]
    show assocLookup ((layoutLocations layout).foldl
      (fun m l => assocSet m l (rgbScale (g name 0))) []) loc = _
    rw [assocLookup_foldl_setConst, if_pos hloc]
  · intro p hp
    have hp2 : p ∈ serializeColors
        (initState g layout name ri el ch dbg t0).location_to_color := hp
    obtain ⟨q, hq, rfl⟩ := List.mem_map.mp hp2
    show q.2 = rgbScale (g name 0)
    have hq2 : q ∈ (layoutLocations layout).foldl
        (fun m l => assocSet m l (rgbScale (g name 0))) [] := hq
    rcases mem_foldl_setConst hq2 with h1 | h1
    · exact h1
    · simp at h1

/-- C6: in the §8 scenario — layout `{"a": [[0,0]], "b": [[0,1]]}`, palette
"hot", refresh 3600 s, lowkey enhancement off — three releases of key `"a"`
leave Press Counters `{(0,0): 3, (0,1): 0}`, normalized values `[1, 0]`
(computed as `(count - min) / max`), and the Color Assignment
`{(0,0): palette(1.0), (0,1): palette(0.0)}`, for any palette function. -/
theorem c6_three_presses_scenario (getCmap : String → Palette) (enh : ℚ → ℚ) :
    (((onKeyRelease getCmap enh
          (initState getCmap [("a", [(0, 0)]), ("b", [(0, 1)])] ("hot") 3600 false false false 0)
          ("a") 0).bind fun s1 =>
        (onKeyRelease getCmap enh s1 ("a") 0).bind fun s2 =>
          onKeyRelease getCmap enh s2 ("a") 0).map HeatMapper.location_to_count
        = some [((0, 0), 3), ((0, 1), 0)])
    ∧ normalizeCounts false enh [(3 : ℚ), 0] = some [1, 0]
    ∧ (((onKeyRelease getCmap enh
          (initState getCmap [("a", [(0, 0)]), ("b", [(0, 1)])] ("hot") 3600 false false false 0)
          ("a") 0).bind fun s1 =>
        (onKeyRelease getCmap enh s1 ("a") 0).bind fun s2 =>
          onKeyRelease getCmap enh s2 ("a") 0).map HeatMapper.location_to_color
        = some [((0, 0), rgbScale (getCmap ("hot") 1)),
            ((0, 1), rgbScale (getCmap ("hot") 0))]) := by
  have hn1 : normalizeCounts false enh [(1 : ℚ), 0] = some [1, 0] := by
    norm_num [normalizeCounts, listMin, listMax, ratMin, ratMax]
  have hn2 : normalizeCounts false enh [(2 : ℚ), 0] = some [1, 0] := by
    norm_num [normalizeCounts, listMin, listMax, ratMin, ratMax]
  have hn3 : normalizeCounts false enh [(3 : ℚ), 0] = some [1, 0] := by
    norm_num [normalizeCounts, listMin, listMax, ratMin, ratMax]
  have h0 : initState getCmap [("a", [(0, 0)]), ("b", [(0, 1)])] ("hot") 3600 false false false 0
      = scenarioState getCmap 0 := by
    with_unfolding_all rfl
  have ha1 : onKeyRelease getCmap enh (scenarioState getCmap 0) ("a") 0
      = updateColorMap enh
          { scenarioState getCmap 1 with
            location_to_color :=
              [((0, 0), rgbScale (getCmap ("hot") 0)), ((0, 1), rgbScale (getCmap ("hot") 0))] } := by
    with_unfolding_all rfl
  have hb1 : updateColorMap enh
      { scenarioState getCmap 1 with
        location_to_color :=
          [((0, 0), rgbScale (getCmap ("hot") 0)), ((0, 1), rgbScale (getCmap ("hot") 0))] }
      = some (scenarioState getCmap 1) := by
    norm_num [updateColorMap, scenarioState, assocSet, hn1, -Prod.mk_zero_zero]
  have ha2 : onKeyRelease getCmap enh (scenarioState getCmap 1) ("a") 0
      = updateColorMap enh (scenarioState getCmap 2) := by
    with_unfolding_all rfl
  have hb2 : updateColorMap enh (scenarioState getCmap 2) = some (scenarioState getCmap 2) := by
    norm_num [updateColorMap, scenarioState, assocSet, hn2, -Prod.mk_zero_zero]
  have ha3 : onKeyRelease getCmap enh (scenarioState getCmap 2) ("a") 0
      = updateColorMap enh (scenarioState getCmap 3) := by
    with_unfolding_all rfl
  have hb3 : updateColorMap enh (scenarioState getCmap 3) = some (scenarioState getCmap 3) := by
    norm_num [updateColorMap, scenarioState, assocSet, hn3, -Prod.mk_zero_zero]
  have hchain : ((onKeyRelease getCmap enh
        (initState getCmap [("a", [(0, 0)]), ("b", [(0, 1)])] ("hot") 3600 false false false 0)
        ("a") 0).bind fun s1 =>
      (onKeyRelease getCmap enh s1 ("a") 0).bind fun s2 =>
        onKeyRelease getCmap enh s2 ("a") 0) = some (scenarioState getCmap 3) := by
    rw [h0, ha1, hb1, Option.some_bind, ha2, hb2, Option.some_bind, ha3, hb3]
  refine ⟨?_, hn3, ?_⟩
  · rw [hchain]
    with_unfolding_all rfl
  · rw [hchain]
    with_unfolding_all rfl
